import Mathlib

/-!
Verification of the cmssy-cli resource-schema engine: a shallow embedding of
the schema validator (`validateSchema` in src/utils/block-config.ts), the
legacy/current schema transforms (src/commands/migrate.ts and
src/utils/block-config.ts), the default-content extraction, the manifest
rewriting done by migrate/build, and the resource discovery scanner, together
with theorems about them.
-/

set_option autoImplicit false

namespace Cmssy

/-- JSON-like values, used for field `defaultValue`s, select option entries and
manifest (package.json) entries.  Numbers are modelled as integers (the values
the CLI manipulates are integral bounds and opaque content payloads). -/
inductive JValue : Type where
  | null : JValue
  | bool (b : Bool) : JValue
  | num (n : Int) : JValue
  | str (s : String) : JValue
  | arr (elems : List JValue) : JValue
  | obj (entries : List (String × JValue)) : JValue

mutual
/-- A field declaration, as consumed by `validateSchema` and the transforms in
src/utils/block-config.ts.  The TypeScript `FieldConfig` is a tagged union
discriminated by `type`; since the code accesses kind-specific payloads after a
cast, we model one record carrying every payload, each optional (`none`, or
`SchemaOpt.absent` for the nested schema, models a JavaScript `undefined`
property). -/
inductive FieldConfig : Type where
  | mk (ftype : String) (flabel : String) (frequired : Bool)
      (fplaceholder : Option String) (fhelpText : Option String)
      (fdefaultValue : Option JValue)
      (foptions : Option (List JValue))
      (fschema : SchemaOpt)
      (fminItems : Option Int) (fmaxItems : Option Int) : FieldConfig
/-- An optional nested schema (`absent` models an absent `schema` property). -/
inductive SchemaOpt : Type where
  | absent : SchemaOpt
  | obj (s : Schema) : SchemaOpt
/-- A schema: the ordered key-to-field mapping `Record<string, FieldConfig>`
in its JavaScript-object iteration (insertion) order. -/
inductive Schema : Type where
  | nil : Schema
  | cons (key : String) (field : FieldConfig) (rest : Schema) : Schema
end

def FieldConfig.type : FieldConfig → String
  | .mk t _ _ _ _ _ _ _ _ _ => t

def FieldConfig.label : FieldConfig → String
  | .mk _ l _ _ _ _ _ _ _ _ => l

def FieldConfig.required : FieldConfig → Bool
  | .mk _ _ r _ _ _ _ _ _ _ => r

def FieldConfig.placeholder : FieldConfig → Option String
  | .mk _ _ _ p _ _ _ _ _ _ => p

def FieldConfig.helpText : FieldConfig → Option String
  | .mk _ _ _ _ h _ _ _ _ _ => h

def FieldConfig.defaultValue : FieldConfig → Option JValue
  | .mk _ _ _ _ _ d _ _ _ _ => d

def FieldConfig.options : FieldConfig → Option (List JValue)
  | .mk _ _ _ _ _ _ o _ _ _ => o

def FieldConfig.schema : FieldConfig → SchemaOpt
  | .mk _ _ _ _ _ _ _ s _ _ => s

def FieldConfig.minItems : FieldConfig → Option Int
  | .mk _ _ _ _ _ _ _ _ m _ => m

def FieldConfig.maxItems : FieldConfig → Option Int
  | .mk _ _ _ _ _ _ _ _ _ m => m

/-- The keys of a schema, in iteration order. -/
def Schema.keys : Schema → List String
  | .nil => []
  | .cons k _ rest => k :: Schema.keys rest

/-- `fullPath` computation of `validateField`:
`parentPath ? parentPath + "." + key : key` (an empty parent path is falsy). -/
def joinPath (parentPath key : String) : String :=
  if parentPath = "" then key else parentPath ++ "." ++ key

/-- Modelled from the spec: §4.1 exposes a predicate
`isValidFieldType(type, vocabulary) -> bool` over the externally supplied
field-type vocabulary (src/utils/field-schema.ts is not part of the sources);
the predicate is membership of the type identifier in the vocabulary. -/
def isValidFieldType (t : String) (fieldTypes : List String) : Bool :=
  fieldTypes.contains t

def invalidTypeMsg (t fullPath : String) (fieldTypes : List String) : String :=
  ("Invalid field type \"" ++ t ++ "\" for field \"") ++ fullPath ++
    ("\". Valid types: " ++ String.intercalate ", " fieldTypes)

def repeaterSchemaMsg (fullPath : String) : String :=
  ("Repeater field \"") ++ fullPath ++ ("\" must have a \"schema\" property")

def minItemsMsg (fullPath : String) : String :=
  ("Repeater field \"") ++ fullPath ++ ("\" has invalid minItems (must be >= 0)")

def maxItemsMsg (fullPath : String) : String :=
  ("Repeater field \"") ++ fullPath ++ ("\" has invalid maxItems (must be >= 1)")

def minMaxMsg (fullPath : String) : String :=
  ("Repeater field \"") ++ fullPath ++ ("\" has minItems > maxItems")

def selectOptionsMsg (fullPath : String) : String :=
  ("Select field \"") ++ fullPath ++ ("\" must have at least one option")

def requiredDefaultMsg (fullPath : String) : String :=
  ("Warning: Field \"") ++ fullPath ++
    ("\" is required but has a defaultValue. The defaultValue will be ignored.")

/-- The `isValidFieldType` check of `validateField`
(src/utils/block-config.ts:60-64). -/
def typeErrors (fieldTypes : List String) (ftype fullPath : String) : List String :=
  if isValidFieldType ftype fieldTypes then []
  else [invalidTypeMsg ftype fullPath fieldTypes]

/-- The `minItems !== undefined && minItems < 0` check
(src/utils/block-config.ts:83-87). -/
def minItemsErrors (fullPath : String) : Option Int → List String
  | some m => if m < 0 then [minItemsMsg fullPath] else []
  | none => []

/-- The `maxItems !== undefined && maxItems < 1` check
(src/utils/block-config.ts:88-92). -/
def maxItemsErrors (fullPath : String) : Option Int → List String
  | some m => if m < 1 then [maxItemsMsg fullPath] else []
  | none => []

/-- The `minItems && maxItems && minItems > maxItems` check
(src/utils/block-config.ts:93-101).  JavaScript truthiness is modelled
explicitly: a `0` bound is falsy and skips the comparison. -/
def minMaxErrors (fullPath : String) : Option Int → Option Int → List String
  | some m, some mx => if m ≠ 0 ∧ mx ≠ 0 ∧ mx < m then [minMaxMsg fullPath] else []
  | _, _ => []

/-- The select-options check (src/utils/block-config.ts:105-116): `options`
must exist, be an array, and be non-empty. -/
def selectErrors (fullPath ftype : String) (opts : Option (List JValue)) : List String :=
  if ftype = "select" then
    match opts with
    | some (_ :: _) => []
    | _ => [selectOptionsMsg fullPath]
  else []

/-- The `field.required && field.defaultValue !== undefined` console warning
(src/utils/block-config.ts:119-125). -/
def requiredWarnings (fullPath : String) (req : Bool) (dv : Option JValue) : List String :=
  if req && dv.isSome then [requiredDefaultMsg fullPath] else []

mutual
/-- The inner `validateField` of `validateSchema`
(src/utils/block-config.ts:52-126).  Returns the errors pushed to the shared
`errors` array and the warnings written to the console side-channel, each in
emission order. -/
def validateField (fieldTypes : List String) (key : String) (f : FieldConfig)
    (parentPath : String) : List String × List String :=
  match f with
  | .mk ftype _flabel req _ph _ht dv opts sch minI maxI =>
    let fullPath := joinPath parentPath key
    let nested : List String × List String :=
      if ftype = "repeater" then
        match sch with
        | .absent => ([repeaterSchemaMsg fullPath], ([] : List String))
        | .obj s => validateFields fieldTypes s fullPath
      else ([], [])
    let repErrs : List String :=
      if ftype = "repeater" then
        nested.1 ++ minItemsErrors fullPath minI ++ maxItemsErrors fullPath maxI ++
          minMaxErrors fullPath minI maxI
      else []
    (typeErrors fieldTypes ftype fullPath ++ repErrs ++ selectErrors fullPath ftype opts,
     nested.2 ++ requiredWarnings fullPath req dv)

/-- The `Object.entries(schema).forEach` loop driving `validateField` over a
schema, both at the top level and inside repeaters. -/
def validateFields (fieldTypes : List String) (s : Schema) (parentPath : String) :
    List String × List String :=
  match s with
  | .nil => ([], [])
  | .cons k f rest =>
    let head := validateField fieldTypes k f parentPath
    let tail := validateFields fieldTypes rest parentPath
    (head.1 ++ tail.1, head.2 ++ tail.2)
end

/-- The validator result `{valid, errors}`, plus the console warning
side-channel made explicit. -/
structure ValidationResult where
  valid : Bool
  errors : List String
  warnings : List String

/-- `validateSchema(schema, blockPath)` (src/utils/block-config.ts:45-133) with
the lazily fetched field-type vocabulary passed as a value (spec §4.1/§9:
inject the process-wide vocabulary into the validator). -/
def validateSchema (fieldTypes : List String) (schema : Schema) : ValidationResult :=
  let r := validateFields fieldTypes schema ""
  ⟨r.1.isEmpty, r.1, r.2⟩

/-- The repeater nested-schema step of `validateField`, named so that the
recursive definition can be unfolded one field at a time in proofs. -/
def nestedResult (fieldTypes : List String) (fullPath ftype : String)
    (sch : SchemaOpt) : List String × List String :=
  if ftype = "repeater" then
    match sch with
    | .absent => ([repeaterSchemaMsg fullPath], [])
    | .obj s => validateFields fieldTypes s fullPath
  else ([], [])

mutual
/-- Claim-side validity condition for one field, following the amended C1
wording: type in the vocabulary; a select field declares at least one option;
a repeater field declares an object-typed nested schema (possibly empty) whose
fields recursively satisfy the rules, with `minItems ≥ 0` and `maxItems ≥ 1`
when present and `minItems ≤ maxItems` when both are present. -/
def fieldMeetsRules (fieldTypes : List String) (f : FieldConfig) : Bool :=
  match f with
  | .mk ftype _flabel _req _ph _ht _dv opts sch minI maxI =>
    isValidFieldType ftype fieldTypes &&
    (if ftype = "select" then
        match opts with
        | some (_ :: _) => true
        | _ => false
      else true) &&
    (if ftype = "repeater" then
        (match sch with
         | .obj s => schemaMeetsRules fieldTypes s
         | .absent => false) &&
        (match minI with
         | some m => decide (0 ≤ m)
         | none => true) &&
        (match maxI with
         | some m => decide (1 ≤ m)
         | none => true) &&
        (match minI, maxI with
         | some m, some mx => decide (m ≤ mx)
         | _, _ => true)
      else true)

/-- Claim-side validity of every field of a schema, recursively. -/
def schemaMeetsRules (fieldTypes : List String) (s : Schema) : Bool :=
  match s with
  | .nil => true
  | .cons _ f rest => fieldMeetsRules fieldTypes f && schemaMeetsRules fieldTypes rest
end

mutual
/-- Claim-side validity condition for one field exactly as claim C1 states it:
like `fieldMeetsRules` but demanding that a repeater's nested schema be
NON-empty. -/
def fieldMeetsRulesOrig (fieldTypes : List String) (f : FieldConfig) : Bool :=
  match f with
  | .mk ftype _flabel _req _ph _ht _dv opts sch minI maxI =>
    isValidFieldType ftype fieldTypes &&
    (if ftype = "select" then
        match opts with
        | some (_ :: _) => true
        | _ => false
      else true) &&
    (if ftype = "repeater" then
        (match sch with
         | .obj s =>
           (match s with
            | .nil => false
            | .cons _ _ _ => true) && schemaMeetsRulesOrig fieldTypes s
         | .absent => false) &&
        (match minI with
         | some m => decide (0 ≤ m)
         | none => true) &&
        (match maxI with
         | some m => decide (1 ≤ m)
         | none => true) &&
        (match minI, maxI with
         | some m, some mx => decide (m ≤ mx)
         | _, _ => true)
      else true)

/-- Claim-side validity (original C1 wording) of every field of a schema. -/
def schemaMeetsRulesOrig (fieldTypes : List String) (s : Schema) : Bool :=
  match s with
  | .nil => true
  | .cons _ f rest => fieldMeetsRulesOrig fieldTypes f && schemaMeetsRulesOrig fieldTypes rest
end

/-- The claim-side nested-schema condition of a repeater: a present
(object-typed) nested schema whose fields all meet the rules. -/
def nestedRulesOk (fieldTypes : List String) (sch : SchemaOpt) : Bool :=
  match sch with
  | .obj s => schemaMeetsRules fieldTypes s
  | .absent => false

/-- A repeater field whose nested schema is the empty object. -/
def emptyRepeaterField : FieldConfig :=
  FieldConfig.mk "repeater" "Items" false none none none none (SchemaOpt.obj Schema.nil)
    none none

/-- `{items: repeater with schema {}}` — accepted by the code, rejected by the
non-empty-nested-schema clause of claim C1. -/
def emptyRepeaterSchema : Schema :=
  Schema.cons "items" emptyRepeaterField Schema.nil

/-! ## Legacy schema transform (src/commands/migrate.ts and
src/utils/block-config.ts) -/

mutual
/-- One legacy `schemaFields` entry: a flat field descriptor from the
`cmssy` manifest section.  `options` entries and other payload values are
opaque JSON values. -/
inductive LegacyField : Type where
  | mk (key : String) (ltype : String) (llabel : String) (lrequired : Bool)
      (lplaceholder : Option String) (lhelpText : Option String)
      (loptions : Option (List JValue))
      (lminItems : Option Int) (lmaxItems : Option Int)
      (itemSchema : LegacyItemOpt) : LegacyField
/-- An optional `itemSchema` property (`absent` models its absence). -/
inductive LegacyItemOpt : Type where
  | absent : LegacyItemOpt
  | item (it : LegacyItem) : LegacyItemOpt
/-- A legacy `itemSchema` object: `{type, fields}` where `fields` may be
absent. -/
inductive LegacyItem : Type where
  | mk (itype : String) (ifields : LegacyFieldsOpt) : LegacyItem
/-- An optional `fields` property of an `itemSchema`. -/
inductive LegacyFieldsOpt : Type where
  | absent : LegacyFieldsOpt
  | fields (fs : LegacyFields) : LegacyFieldsOpt
/-- An ordered legacy field list. -/
inductive LegacyFields : Type where
  | nil : LegacyFields
  | cons (f : LegacyField) (rest : LegacyFields) : LegacyFields
end

def LegacyField.key : LegacyField → String
  | .mk k _ _ _ _ _ _ _ _ _ => k

def LegacyField.type : LegacyField → String
  | .mk _ t _ _ _ _ _ _ _ _ => t

def LegacyField.label : LegacyField → String
  | .mk _ _ l _ _ _ _ _ _ _ => l

def LegacyField.required : LegacyField → Bool
  | .mk _ _ _ r _ _ _ _ _ _ => r

def LegacyField.placeholder : LegacyField → Option String
  | .mk _ _ _ _ p _ _ _ _ _ => p

def LegacyField.helpText : LegacyField → Option String
  | .mk _ _ _ _ _ h _ _ _ _ => h

def LegacyField.options : LegacyField → Option (List JValue)
  | .mk _ _ _ _ _ _ o _ _ _ => o

def LegacyField.minItems : LegacyField → Option Int
  | .mk _ _ _ _ _ _ _ m _ _ => m

def LegacyField.maxItems : LegacyField → Option Int
  | .mk _ _ _ _ _ _ _ _ m _ => m

def LegacyField.itemSchema : LegacyField → LegacyItemOpt
  | .mk _ _ _ _ _ _ _ _ _ i => i

/-- The nested legacy field list of a field, when `itemSchema.fields` exists. -/
def LegacyField.itemFields : LegacyField → LegacyFieldsOpt
  | .mk _ _ _ _ _ _ _ _ _ (.item (.mk _ fs)) => fs
  | .mk _ _ _ _ _ _ _ _ _ .absent => .absent

/-- Truthiness of the `itemSchema` property (objects are truthy). -/
def LegacyItemOpt.isItem : LegacyItemOpt → Bool
  | .absent => false
  | .item _ => true

/-- `mapLegacyType` (src/commands/migrate.ts:194-203): the fixed old-name to
new-name table, unknown names pass through. -/
def mapLegacyType (t : String) : String :=
  if t = "text" then "singleLine"
  else if t = "string" then "singleLine"
  else t

/-- JavaScript string truthiness of an optional string property: present and
non-empty. -/
def strTruthy : Option String → Bool
  | some s => s ≠ ""
  | none => false

/-- JavaScript numeric truthiness applied by `if (field.minItems) ...`: a `0`
bound is falsy and therefore dropped. -/
def numKeep : Option Int → Option Int
  | some m => if m = 0 then none else some m
  | none => none

/-- JS object-style insertion into a schema: assigning to an existing key
replaces its value in place, otherwise the entry is appended
(`schema[field.key] = newField`). -/
def Schema.insert : Schema → String → FieldConfig → Schema
  | .nil, k, f => .cons k f .nil
  | .cons k0 f0 rest, k, f =>
    if k0 = k then .cons k0 f rest else .cons k0 f0 (Schema.insert rest k f)

mutual
/-- The per-field body of `convertLegacySchemaToNew`
(src/commands/migrate.ts:161-188): canonicalize the type, copy
label/required, copy truthy placeholder/helpText, copy options for legacy
select fields, and for legacy repeater fields with an `itemSchema` copy the
truthy (nonzero) bounds and recursively convert `itemSchema.fields` (absent
fields give an empty nested schema). -/
def convertLegacyField (fld : LegacyField) : FieldConfig :=
  match fld with
  | .mk _key ltype lbl req ph ht opts minI maxI itemS =>
    let nestedSchema : SchemaOpt :=
      if ltype = "repeater" then
        match itemS with
        | .item (.mk _ (.fields fs)) => .obj (convertLegacyFields fs Schema.nil)
        | .item (.mk _ .absent) => .obj Schema.nil
        | .absent => .absent
      else .absent
    FieldConfig.mk (mapLegacyType ltype) lbl req
      (if strTruthy ph then ph else none)
      (if strTruthy ht then ht else none)
      none
      (if ltype = "select" && opts.isSome then opts else none)
      nestedSchema
      (if ltype = "repeater" && itemS.isItem then numKeep minI else none)
      (if ltype = "repeater" && itemS.isItem then numKeep maxI else none)

/-- The `schemaFields.forEach` loop of `convertLegacySchemaToNew`, threading
the object being built (`schema[field.key] = newField`). -/
def convertLegacyFields (fs : LegacyFields) (acc : Schema) : Schema :=
  match fs with
  | .nil => acc
  | .cons f rest =>
    convertLegacyFields rest (Schema.insert acc (LegacyField.key f) (convertLegacyField f))
end

/-- `convertLegacySchemaToNew(schemaFields)` (src/commands/migrate.ts:156-192). -/
def convertLegacySchemaToNew (fs : LegacyFields) : Schema :=
  convertLegacyFields fs Schema.nil

mutual
/-- The per-field body of `convertSchemaToLegacyFormat`
(src/utils/block-config.ts:164-193).  A repeater field whose `schema`
property is absent makes `Object.entries(undefined)` throw, modelled by
`none`. -/
def convertFieldBack (k : String) (f : FieldConfig) : Option LegacyField :=
  match f with
  | .mk ftype lbl req ph _ht _dv opts sch minI maxI =>
    let phKeep := if strTruthy ph then ph else none
    let optsKeep := if ftype = "select" then opts else none
    if ftype = "repeater" then
      match sch with
      | .absent => none
      | .obj s =>
        match convertSchemaBackAux s with
        | none => none
        | some nested =>
          some (LegacyField.mk k ftype lbl req phKeep none optsKeep minI maxI
            (LegacyItemOpt.item (LegacyItem.mk "object" (LegacyFieldsOpt.fields nested))))
    else
      some (LegacyField.mk k ftype lbl req phKeep none optsKeep none none
        LegacyItemOpt.absent)

/-- The `Object.entries(schema).forEach` loop of
`convertSchemaToLegacyFormat`, pushing one flat descriptor per entry. -/
def convertSchemaBackAux : Schema → Option LegacyFields
  | .nil => some .nil
  | .cons k f rest =>
    match convertFieldBack k f, convertSchemaBackAux rest with
    | some lf, some lrest => some (.cons lf lrest)
    | _, _ => none
end

/-- `convertSchemaToLegacyFormat(schema)` (src/utils/block-config.ts:159-200). -/
def convertSchemaToLegacyFormat (s : Schema) : Option LegacyFields :=
  convertSchemaBackAux s

/-! ## Default-content extraction (src/utils/block-config.ts:202-215) -/

/-- JS object-style insertion into a plain JSON object (`content[key] = v`):
replace in place when the key exists, append otherwise. -/
def objInsert (o : List (String × JValue)) (k : String) (v : JValue) :
    List (String × JValue) :=
  match o with
  | [] => [(k, v)]
  | (k0, v0) :: rest =>
    if k0 = k then (k0, v) :: rest else (k0, v0) :: objInsert rest k v

/-- The `Object.entries(schema).forEach` loop of `extractDefaultContent`,
threading the `content` object. -/
def extractDefaultContentAux : Schema → List (String × JValue) → List (String × JValue)
  | .nil, acc => acc
  | .cons k f rest, acc =>
    extractDefaultContentAux rest
      (match f.defaultValue with
       | some v => objInsert acc k v
       | none =>
         if f.type = "repeater" then objInsert acc k (JValue.arr []) else acc)

/-- `extractDefaultContent(schema)` (src/utils/block-config.ts:202-215). -/
def extractDefaultContent (s : Schema) : List (String × JValue) :=
  extractDefaultContentAux s []

/-- Claim-side characterization of `extractDefaultContent`: exactly one entry
per field that declares a `defaultValue` (contributing that value under the
field key) or is a repeater with no declared default (contributing an empty
sequence); fields of other kinds with no default are absent. -/
def extractDefaultContentSpec : Schema → List (String × JValue)
  | .nil => []
  | .cons k f rest =>
    match f.defaultValue with
    | some v => (k, v) :: extractDefaultContentSpec rest
    | none =>
      if f.type = "repeater" then (k, JValue.arr []) :: extractDefaultContentSpec rest
      else extractDefaultContentSpec rest

/-! ## The migrate workflow schema construction (src/commands/migrate.ts) -/

/-- First matching entry of a schema (`schema[key]` read). -/
def Schema.lookup : Schema → String → Option FieldConfig
  | .nil, _ => none
  | .cons k0 f0 rest, k => if k0 = k then some f0 else Schema.lookup rest k

/-- `schema[key].defaultValue = v` on the (first) entry holding `key`. -/
def Schema.setDefault : Schema → String → JValue → Schema
  | .nil, _, _ => .nil
  | .cons k0 f0 rest, k, v =>
    if k0 = k then
      match f0 with
      | .mk t l r ph ht _dv o s mi ma => .cons k0 (.mk t l r ph ht (some v) o s mi ma) rest
    else .cons k0 f0 (Schema.setDefault rest k v)

/-- The `Object.keys(cmssy.defaultContent).forEach` merge loop of
`migrateBlock` (src/commands/migrate.ts:121-127): a default is merged only
when the converted schema has a field under that key. -/
def mergeDefaults (s : Schema) : List (String × JValue) → Schema
  | [] => s
  | (k, v) :: rest =>
    mergeDefaults (if (Schema.lookup s k).isSome then Schema.setDefault s k v else s) rest

/-- The schema produced by `migrateBlock` (src/commands/migrate.ts:113-127)
from a legacy manifest section: `convertLegacySchemaToNew(cmssy.schemaFields ||
[])`, then the `defaultContent` merge when that mapping is present (truthy). -/
def migrateSchema (schemaFields : LegacyFields)
    (defaultContent : Option (List (String × JValue))) : Schema :=
  let s := convertLegacySchemaToNew schemaFields
  match defaultContent with
  | some dc => mergeDefaults s dc
  | none => s

/-! ## Manifest rewriting (src/commands/migrate.ts:143-150 and
src/commands/build.ts:277-292) -/

/-- The manifest written back by `migrateBlock`:
`const newPkg = {...pkg}; delete newPkg.cmssy` — every entry except the
`cmssy` one, in order. -/
def migratedPackageJson (pkg : List (String × JValue)) : List (String × JValue) :=
  pkg.filter (fun kv => kv.1 ≠ "cmssy")

/-- The manifest written by `buildResource`:
`{...resource.packageJson, cmssy: cmssyMetadata}` — JS spread-and-set, which
replaces an existing `cmssy` entry in place and otherwise appends it. -/
def buildOutputPackageJson (pkg : List (String × JValue)) (meta : JValue) :
    List (String × JValue) :=
  objInsert pkg "cmssy" meta

/-! ## Resource discovery scanner (`scanResources`/`scanDirectory` in the
scanner utility module) -/

/-- The two collections. -/
inductive ResType : Type where
  | block : ResType
  | template : ResType
deriving DecidableEq

/-- `type === "block" ? "Block" : "Template"`. -/
def ResType.display : ResType → String
  | .block => "Block"
  | .template => "Template"

/-- `type` as the string stored in a `ScannedResource`. -/
def ResType.tag : ResType → String
  | .block => "block"
  | .template => "template"

/-- The manifest (package.json) as the scanner reads it: `name`/`version`
with JS truthiness, the presence (truthiness) of the legacy `cmssy` section,
and an optional `description`. -/
structure PkgJson where
  pname : Option String
  pversion : Option String
  cmssy : Bool
  pdescription : Option String
deriving DecidableEq

/-- A resolved `block.config.ts` default export, restricted to what the
scanner reads from it. -/
structure BlockCfg where
  cname : Option String
  cdescription : Option String
  ccategory : Option String
  cschema : Schema

/-- One immediate subdirectory of a collection, with the outcome of
`loadBlockConfig`, `getPackageJson` and the optional `preview.json` read. -/
structure ItemInfo where
  iname : String
  iblockConfig : Option BlockCfg
  ipkg : Option PkgJson
  ipreview : Option (List (String × JValue))

/-- `ScanOptions` (scanner module): the five behaviour switches. -/
structure ScanOptions where
  strict : Bool
  loadConfig : Bool
  shouldValidate : Bool
  loadPreview : Bool
  requirePackageJson : Bool

/-- A normalized `ScannedResource` record. -/
structure ScannedResource where
  rtype : ResType
  rname : String
  displayName : Option String
  rdescription : Option String
  rcategory : Option String
  previewData : Option (List (String × JValue))
  rblockConfig : Option BlockCfg
  rpackageJson : Option PkgJson

/-- `!pkg || !pkg.name || !pkg.version` (negated): the manifest exists and has
truthy `name` and `version`. -/
def pkgComplete : Option PkgJson → Bool
  | none => false
  | some p => strTruthy p.pname && strTruthy p.pversion

/-- Truthy-or fallback `a || b` on optional strings. -/
def strOr (a b : Option String) : Option String :=
  if strTruthy a then a else b

/-- The migration-required message thrown/warned by `scanDirectory`. -/
def legacyFormatMsg (t : ResType) (itemName : String) : String :=
  (t.display ++ " \"" ++ itemName ++ "\" uses legacy package.json format.\n") ++
    ("Please migrate to block.config.ts.\n" ++
     "Run: cmssy migrate " ++ itemName ++ "\n" ++
     "Or see migration guide: https://cmssy.io/docs/migration")

/-- The manifest-invalid message of `scanDirectory`. -/
def pkgIncompleteMsg (t : ResType) (itemName : String) : String :=
  t.display ++ " \"" ++ itemName ++ "\" must have package.json with name and version"

/-- The strict-mode schema-validation failure of `scanDirectory`. -/
def validationFailedMsg (itemName : String) : String :=
  "Schema validation failed for " ++ itemName

/-- `pkg && pkg.cmssy`: the manifest exists and carries a truthy legacy
`cmssy` section. -/
def hasCmssy : Option PkgJson → Bool
  | some p => p.cmssy
  | none => false

/-- The body of the `for (const itemName of itemDirs)` loop of
`scanDirectory`: `Except.error` models a thrown error, `Except.ok none` a
`continue` with no record, `Except.ok (some r)` a pushed record. -/
def scanItem (fieldTypes : List String) (t : ResType) (o : ScanOptions)
    (it : ItemInfo) : Except String (Option ScannedResource) :=
  let finish : Option BlockCfg → Except String (Option ScannedResource) := fun bc =>
    if o.requirePackageJson && !pkgComplete it.ipkg then
      if o.strict then .error (pkgIncompleteMsg t it.iname)
      else .ok none
    else
      let previewData : List (String × JValue) :=
        if o.loadPreview then (it.ipreview.getD []) else []
      .ok (some
        { rtype := t
          rname := it.iname
          displayName := bc.bind fun c => some (match strOr c.cname (some it.iname) with
            | some d => d
            | none => it.iname)
          rdescription := bc.bind fun c =>
            strOr c.cdescription (it.ipkg.bind PkgJson.pdescription)
          rcategory := bc.bind BlockCfg.ccategory
          previewData := if o.loadPreview && !previewData.isEmpty then some previewData else none
          rblockConfig := bc
          rpackageJson := it.ipkg })
  if o.loadConfig then
    match it.iblockConfig with
    | none =>
      if hasCmssy it.ipkg then
        if o.strict then .error (legacyFormatMsg t it.iname)
        else .ok none
      else .ok none
    | some bc =>
      if o.shouldValidate && !(validateSchema fieldTypes bc.cschema).valid then
        if o.strict then .error (validationFailedMsg it.iname)
        else .ok none
      else finish (some bc)
  else finish none

/-- The `scanDirectory` loop over the subdirectories of one collection. -/
def scanItems (fieldTypes : List String) (t : ResType) (o : ScanOptions) :
    List ItemInfo → Except String (List ScannedResource)
  | [] => .ok []
  | it :: rest =>
    match scanItem fieldTypes t o it with
    | .error e => .error e
    | .ok r =>
      match scanItems fieldTypes t o rest with
      | .error e => .error e
      | .ok rs =>
        .ok (match r with
             | some x => x :: rs
             | none => rs)

/-- `scanDirectory` including the `fs.existsSync(dir)` guard: a missing
collection directory contributes nothing. -/
def scanDirectory (fieldTypes : List String) (t : ResType) (o : ScanOptions) :
    Option (List ItemInfo) → Except String (List ScannedResource)
  | none => .ok []
  | some items => scanItems fieldTypes t o items

/-- `scanResources(options)`: scan the `blocks` collection, then the
`templates` collection, accumulating records in that order. -/
def scanResources (fieldTypes : List String) (o : ScanOptions)
    (blocks templates : Option (List ItemInfo)) :
    Except String (List ScannedResource) :=
  match scanDirectory fieldTypes ResType.block o blocks with
  | .error e => .error e
  | .ok rb =>
    match scanDirectory fieldTypes ResType.template o templates with
    | .error e => .error e
    | .ok rt => .ok (rb ++ rt)

/-! ## Claim-side predicates for the round-trip property (C3) -/

/-- The keys of a legacy field list, in order. -/
def keysL : LegacyFields → List String
  | .nil => []
  | .cons f rest => f.key :: keysL rest

mutual
/-- A legacy field is directly representable (claim C3 hypothesis): its type
is not a legacy alias (the canonicalization map fixes it), and a repeater
declares an `itemSchema` whose fields (when present) are recursively directly
representable. -/
def fieldDirect : LegacyField → Bool
  | .mk _ ltype _ _ _ _ _ _ _ itemS =>
    decide (mapLegacyType ltype = ltype) &&
    (if ltype = "repeater" then
       match itemS with
       | .item (.mk _ (.fields fs)) => fieldsDirect fs
       | .item (.mk _ .absent) => true
       | .absent => false
     else true)

/-- A legacy field list is directly representable: every field is, and keys
are pairwise distinct (schemas are key-to-field mappings). -/
def fieldsDirect : LegacyFields → Bool
  | .nil => true
  | .cons f rest => fieldDirect f && decide (f.key ∉ keysL rest) && fieldsDirect rest
end

mutual
/-- No declared `minItems`/`maxItems` bound is `0`, recursively (the amendment
to claim C3: a `0` bound is falsy in JavaScript and dropped by the
legacy-to-current direction). -/
def fieldNoZeroBound : LegacyField → Bool
  | .mk _ _ _ _ _ _ _ minI maxI itemS =>
    decide (minI ≠ some 0) && decide (maxI ≠ some 0) &&
    (match itemS with
     | .item (.mk _ (.fields fs)) => fieldsNoZeroBound fs
     | _ => true)

/-- `fieldNoZeroBound` over a legacy field list. -/
def fieldsNoZeroBound : LegacyFields → Bool
  | .nil => true
  | .cons f rest => fieldNoZeroBound f && fieldsNoZeroBound rest
end

mutual
/-- Claim-side preservation (C3): the round-tripped field keeps the original
key, label, required flag, the options of a select field, and the
`minItems`/`maxItems` bounds and (recursively) nested fields of a repeater
field. -/
def PreservesField : LegacyField → LegacyField → Prop
  | .mk okey oltype olbl oreq _oph _oht oopts omin omax oitem, r =>
    r.key = okey ∧ r.label = olbl ∧ r.required = oreq ∧
    (oltype = "select" → r.options = oopts) ∧
    (oltype = "repeater" →
      r.minItems = omin ∧ r.maxItems = omax ∧
      (match oitem with
       | .item (.mk _ (.fields ofs)) =>
         (match r.itemFields with
          | .fields rfs => PreservesFields ofs rfs
          | .absent => False)
       | _ => True))

/-- Pairwise `PreservesField` over equal-length field lists. -/
def PreservesFields : LegacyFields → LegacyFields → Prop
  | .nil, .nil => True
  | .cons o orest, .cons r rrest => PreservesField o r ∧ PreservesFields orest rrest
  | _, _ => False
end

/-- The forward conversion as a plain in-order map; with pairwise-distinct
keys, `convertLegacySchemaToNew` coincides with it. -/
def convertLegacyList : LegacyFields → Schema
  | .nil => .nil
  | .cons f rest => .cons f.key (convertLegacyField f) (convertLegacyList rest)

/-- Schema concatenation (for relating object insertion to appending). -/
def Schema.append : Schema → Schema → Schema
  | .nil, s => s
  | .cons k f rest, s => .cons k f (Schema.append rest s)

/-- The nested-schema component produced by `convertLegacyField` (named for
one-field unfolding in proofs). -/
def convertNested (ltype : String) (itemS : LegacyItemOpt) : SchemaOpt :=
  if ltype = "repeater" then
    match itemS with
    | .item (.mk _ (.fields fs)) => .obj (convertLegacyFields fs Schema.nil)
    | .item (.mk _ .absent) => .obj Schema.nil
    | .absent => .absent
  else .absent

/-- The body of `convertFieldBack` (named for one-field unfolding in
proofs). -/
def convertFieldBackSpec (k ftype lbl : String) (req : Bool) (ph : Option String)
    (opts : Option (List JValue)) (minI maxI : Option Int) (sch : SchemaOpt) :
    Option LegacyField :=
  let phKeep := if strTruthy ph then ph else none
  let optsKeep := if ftype = "select" then opts else none
  if ftype = "repeater" then
    match sch with
    | .absent => none
    | .obj s =>
      match convertSchemaBackAux s with
      | none => none
      | some nested =>
        some (LegacyField.mk k ftype lbl req phKeep none optsKeep minI maxI
          (LegacyItemOpt.item (LegacyItem.mk "object" (LegacyFieldsOpt.fields nested))))
  else
    some (LegacyField.mk k ftype lbl req phKeep none optsKeep none none
      LegacyItemOpt.absent)

/-- The nested component of `fieldDirect` (named for one-field unfolding). -/
def fieldDirectNested (ltype : String) (itemS : LegacyItemOpt) : Bool :=
  if ltype = "repeater" then
    match itemS with
    | .item (.mk _ (.fields fs)) => fieldsDirect fs
    | .item (.mk _ .absent) => true
    | .absent => false
  else true

/-- The nested component of `fieldNoZeroBound` (named for one-field
unfolding). -/
def fieldNoZeroNested (itemS : LegacyItemOpt) : Bool :=
  match itemS with
  | .item (.mk _ (.fields fs)) => fieldsNoZeroBound fs
  | _ => true

/-- The nested component of `PreservesField` (named for one-field
unfolding). -/
def PreservesNested (oitem : LegacyItemOpt) (r : LegacyField) : Prop :=
  match oitem with
  | .item (.mk _ (.fields ofs)) =>
    (match r.itemFields with
     | .fields rfs => PreservesFields ofs rfs
     | .absent => False)
  | _ => True

/-! ## Manifest lookup (for the frame properties of migrate/build) -/

/-- First-match key lookup in a manifest object. -/
def manifestLookup (pkg : List (String × JValue)) (k : String) : Option JValue :=
  match pkg with
  | [] => none
  | (k0, v) :: rest => if k0 = k then some v else manifestLookup rest k

/-- `schema[key].defaultValue` of the first (only) field under a key, `none`
when there is no such field or no default. -/
def lookupDefault (s : Schema) (k : String) : Option JValue :=
  match Schema.lookup s k with
  | some f => f.defaultValue
  | none => none

/-! ## Concrete inputs used by counterexamples and witnesses -/

/-- The legacy field of claim C2:
`{key:"title", type:"text", label:"Title", required:true}`. -/
def legacyTitleField : LegacyField :=
  LegacyField.mk "title" "text" "Title" true none none none none none LegacyItemOpt.absent

/-- The claim C2 legacy `schemaFields` list. -/
def legacyC2Fields : LegacyFields :=
  LegacyFields.cons legacyTitleField LegacyFields.nil

/-- The claim C2 legacy `defaultContent` mapping `{title:"Hello"}`. -/
def defaultContentC2 : List (String × JValue) :=
  [("title", JValue.str "Hello")]

/-- What the legacy-to-current transform actually produces on the C2 input:
the `defaultContent` merge sets `defaultValue` even though `required` is
`true`. -/
def migratedC2Schema : Schema :=
  Schema.cons "title"
    (FieldConfig.mk "singleLine" "Title" true none none (some (JValue.str "Hello"))
      none SchemaOpt.absent none none) Schema.nil

/-- The schema claim C2 says the transform yields: no `defaultValue` on the
`title` field. -/
def claimedC2Schema : Schema :=
  Schema.cons "title"
    (FieldConfig.mk "singleLine" "Title" true none none none none SchemaOpt.absent
      none none)
    Schema.nil

/-- A legacy repeater field with `minItems = 0` and `maxItems = 2`: directly
representable, yet its zero bound is dropped by the legacy-to-current
direction. -/
def zeroMinField : LegacyField :=
  LegacyField.mk "items" "repeater" "Items" false none none none (some 0) (some 2)
    (LegacyItemOpt.item (LegacyItem.mk "object" (LegacyFieldsOpt.fields LegacyFields.nil)))

/-- The single-field legacy list refuting claim C3 as stated. -/
def zeroMinFields : LegacyFields :=
  LegacyFields.cons zeroMinField LegacyFields.nil

/-- What the round trip produces on `zeroMinFields`: the `minItems` bound is
gone. -/
def zeroMinRoundTrip : LegacyFields :=
  LegacyFields.cons
    (LegacyField.mk "items" "repeater" "Items" false none none none none (some 2)
      (LegacyItemOpt.item (LegacyItem.mk "object" (LegacyFieldsOpt.fields LegacyFields.nil))))
    LegacyFields.nil

/-- A directly-representable legacy field list with nonzero bounds (for the
C3 witness): a repeater with a nested single-line field, then a select with
one option. -/
def demoLegacyFields : LegacyFields :=
  LegacyFields.cons
    (LegacyField.mk "items" "repeater" "Items" false none none none
      (some 1) (some 3)
      (LegacyItemOpt.item (LegacyItem.mk "object" (LegacyFieldsOpt.fields
        (LegacyFields.cons
          (LegacyField.mk "name" "singleLine" "Name" true none none none none none
            LegacyItemOpt.absent)
          LegacyFields.nil)))))
    (LegacyFields.cons
      (LegacyField.mk "color" "select" "Color" false none none
        (some [JValue.str "red"]) none none LegacyItemOpt.absent)
      LegacyFields.nil)

/-- The claim C5 example schema
`{items: repeater{schema:{title: select, options: []}}}`. -/
def nestedSelectSchema : Schema :=
  Schema.cons "items"
    (FieldConfig.mk "repeater" "Items" false none none none none
      (SchemaOpt.obj (Schema.cons "title"
        (FieldConfig.mk "select" "Title" false none none none (some []) SchemaOpt.absent
          none none)
        Schema.nil))
      none none)
    Schema.nil

/-- A required field carrying a default value (for the C4 witness). -/
def requiredDefaultField : FieldConfig :=
  FieldConfig.mk "singleLine" "Title" true none none (some (JValue.str "Hi"))
    none SchemaOpt.absent none none

/-- A two-field schema with one explicit default and one repeater (for the C6
witness). -/
def defaultsDemoSchema : Schema :=
  Schema.cons "title"
    (FieldConfig.mk "singleLine" "Title" false none none (some (JValue.str "Hi"))
      none SchemaOpt.absent none none)
    (Schema.cons "items"
      (FieldConfig.mk "repeater" "Items" false none none none none
        (SchemaOpt.obj Schema.nil) none none)
      (Schema.cons "subtitle"
        (FieldConfig.mk "singleLine" "Subtitle" false none none none none
          SchemaOpt.absent none none)
        Schema.nil))

/-- A directory item in legacy format: no `block.config.ts`, manifest with a
truthy `cmssy` section (for the C7 witness). -/
def legacyItem : ItemInfo :=
  ItemInfo.mk "hero" none (some (PkgJson.mk (some "hero") (some "1.0.0") true none)) none

/-- An unconfigured directory item: no `block.config.ts`, manifest without
`cmssy` (for the C8 witness). -/
def unconfiguredItem : ItemInfo :=
  ItemInfo.mk "plain" none (some (PkgJson.mk (some "plain") (some "1.0.0") false none)) none

/-- A fully configured directory item with an empty (valid) schema (for the
C10 witness). -/
def configuredItem : ItemInfo :=
  ItemInfo.mk "card" (some (BlockCfg.mk (some "Card") none none Schema.nil))
    (some (PkgJson.mk (some "card") (some "1.0.0") false none)) none

/-- Strict scan options with every load/validate switch at the
`scanResources` defaults. -/
def strictOptions : ScanOptions :=
  ScanOptions.mk true true true false true

/-- Non-strict scan options with every load/validate switch at the
`scanResources` defaults. -/
def lenientOptions : ScanOptions :=
  ScanOptions.mk false true true false true

/-- A manifest carrying a `cmssy` section among other entries. -/
def manifestWithCmssy : List (String × JValue) :=
  [("name", JValue.str "hero"), ("cmssy", JValue.obj []), ("version", JValue.str "1.0.0")]

/-- A manifest without a `cmssy` section. -/
def manifestPlain : List (String × JValue) :=
  [("name", JValue.str "hero"), ("version", JValue.str "1.0.0")]

/-- Replace a field's `required`/`defaultValue` attributes, leaving everything
else unchanged (used to state that validation errors do not depend on them). -/
def setReqDefault (f : FieldConfig) (b : Bool) (d : Option JValue) : FieldConfig :=
  match f with
  | .mk t l _r ph ht _dv o s mi ma => .mk t l b ph ht d o s mi ma

/-!
# Theorems
-/

/-! ## C2 — the legacy-to-current end-to-end example -/

/-- Claim C2 is false on the code: on the legacy section
`{schemaFields:[{key:"title", type:"text", label:"Title", required:true}],
defaultContent:{title:"Hello"}}`, `migrateBlock`'s defaultContent merge sets
`defaultValue: "Hello"` on the (required) `title` field, so the produced
schema is not the claimed one without a default. -/
theorem migrateSchema_C2_sets_default :
    migrateSchema legacyC2Fields (some defaultContentC2) ≠ claimedC2Schema := by
  intro h
  have h2 : (some (JValue.str "Hello") : Option JValue) = none :=
    congrArg (fun s => lookupDefault s "title") h
  exact Option.noConfusion h2

/-- Amended C2: the legacy-to-current transform on the C2 input yields exactly
`{title:{type:"singleLine", label:"Title", required:true,
defaultValue:"Hello"}}` — the defaultContent merge is unconditional, and the
required/default contradiction is only surfaced as a validation warning. -/
theorem migrateSchema_C2_amended :
    migrateSchema legacyC2Fields (some defaultContentC2) = migratedC2Schema := rfl

/-! ## C9 — manifest frame effects of migrate and build -/

/-- Lookup of a non-`cmssy` key is unchanged by removing the `cmssy` section. -/
theorem manifestLookup_migrated (pkg : List (String × JValue)) (k : String)
    (hk : k ≠ "cmssy") :
    manifestLookup (migratedPackageJson pkg) k = manifestLookup pkg k := by
  induction pkg with
  | nil => rfl
  | cons kv rest ih =>
    obtain ⟨k0, v0⟩ := kv
    by_cases h0 : k0 = "cmssy"
    · subst h0
      simp [migratedPackageJson, manifestLookup, Ne.symm hk] at ih ⊢
      exact ih
    · by_cases hke : k0 = k
      · subst hke
        simp [migratedPackageJson, manifestLookup, h0]
      · simp [migratedPackageJson, manifestLookup, h0, hke] at ih ⊢
        exact ih

/-- The migrated manifest has no `cmssy` entry. -/
theorem manifestLookup_migrated_cmssy (pkg : List (String × JValue)) :
    manifestLookup (migratedPackageJson pkg) "cmssy" = none := by
  induction pkg with
  | nil => rfl
  | cons kv rest ih =>
    obtain ⟨k0, v0⟩ := kv
    by_cases h0 : k0 = "cmssy"
    · simpa [migratedPackageJson, manifestLookup, h0] using ih
    · simpa [migratedPackageJson, manifestLookup, h0] using ih

/-- Setting a key absent from an object appends it. -/
theorem objInsert_of_absent (pkg : List (String × JValue)) (k : String) (v : JValue)
    (h : manifestLookup pkg k = none) :
    objInsert pkg k v = pkg ++ [(k, v)] := by
  induction pkg with
  | nil => rfl
  | cons kv rest ih =>
    obtain ⟨k0, v0⟩ := kv
    by_cases h0 : k0 = k
    · subst h0
      simp [manifestLookup] at h
    · simp [manifestLookup, h0] at h
      simp [objInsert, h0, ih h]

/-- Claim C9: migration rewrites the manifest with the `cmssy` section
removed and every other top-level entry unchanged; and, for a manifest with
no pre-existing `cmssy` entry, the build step writes exactly the input
manifest with a `cmssy` section appended. -/
theorem manifest_frame_C9 (pkg : List (String × JValue)) (meta : JValue) :
    (∀ k, k ≠ "cmssy" →
      manifestLookup (migratedPackageJson pkg) k = manifestLookup pkg k) ∧
    manifestLookup (migratedPackageJson pkg) "cmssy" = none ∧
    (manifestLookup pkg "cmssy" = none →
      buildOutputPackageJson pkg meta = pkg ++ [("cmssy", meta)]) := by
  refine ⟨fun k hk => manifestLookup_migrated pkg k hk,
    manifestLookup_migrated_cmssy pkg, fun h => objInsert_of_absent pkg "cmssy" meta h⟩

/-- Witness for C9 at a concrete manifest (no `cmssy` entry in the input). -/
theorem manifest_frame_C9_witness :
    ("name" ≠ "cmssy" ∧ manifestLookup manifestPlain "cmssy" = none) ∧
    manifestLookup (migratedPackageJson manifestPlain) "name" =
      manifestLookup manifestPlain "name" ∧
    manifestLookup (migratedPackageJson manifestPlain) "cmssy" = none ∧
    buildOutputPackageJson manifestPlain (JValue.obj []) =
      manifestPlain ++ [("cmssy", JValue.obj [])] := by
  have h := manifest_frame_C9 manifestPlain (JValue.obj [])
  exact ⟨⟨by decide, rfl⟩, h.1 "name" (by decide), h.2.1, h.2.2 rfl⟩

/-! ## C6 — default-content extraction -/

/-- Lookup distributes over append, preferring the left object. -/
theorem manifestLookup_append (a b : List (String × JValue)) (k : String) :
    manifestLookup (a ++ b) k =
      (match manifestLookup a k with
       | some v => some v
       | none => manifestLookup b k) := by
  induction a with
  | nil => rfl
  | cons kv rest ih =>
    obtain ⟨k0, v0⟩ := kv
    by_cases h : k0 = k <;> simp [manifestLookup, h, ih]

/-- The `extractDefaultContent` loop, on a schema whose keys are distinct and
fresh for the accumulated object, appends the specified entries. -/
theorem extractAux_append : ∀ (s : Schema) (acc : List (String × JValue)),
    (Schema.keys s).Nodup →
    (∀ k ∈ Schema.keys s, manifestLookup acc k = none) →
    extractDefaultContentAux s acc = acc ++ extractDefaultContentSpec s
  | .nil, acc, _, _ => by
    simp [extractDefaultContentAux, extractDefaultContentSpec]
  | .cons k f rest, acc, hnd, hfresh => by
    have hk : manifestLookup acc k = none := hfresh k (by simp [Schema.keys])
    have hnd' : (Schema.keys rest).Nodup := by
      simpa [Schema.keys] using hnd.of_cons
    have hknotin : k ∉ Schema.keys rest := by
      have := hnd
      simp [Schema.keys] at this
      exact this.1
    -- freshness of the extended accumulator for the remaining keys
    have hfresh' : ∀ (v : JValue) (k' : String), k' ∈ Schema.keys rest →
        manifestLookup (acc ++ [(k, v)]) k' = none := by
      intro v k' hk'
      have hne : k ≠ k' := fun h => hknotin (h ▸ hk')
      rw [manifestLookup_append]
      rw [hfresh k' (by simp [Schema.keys, hk'])]
      simp [manifestLookup, hne]
    cases hdv : f.defaultValue with
    | some v =>
      rw [show extractDefaultContentAux (Schema.cons k f rest) acc =
            extractDefaultContentAux rest (objInsert acc k v) by
          simp [extractDefaultContentAux, hdv]]
      rw [objInsert_of_absent acc k v hk]
      rw [extractAux_append rest (acc ++ [(k, v)]) hnd' (hfresh' v)]
      simp [extractDefaultContentSpec, hdv]
    | none =>
      by_cases hrep : f.type = "repeater"
      · rw [show extractDefaultContentAux (Schema.cons k f rest) acc =
              extractDefaultContentAux rest (objInsert acc k (JValue.arr [])) by
            simp [extractDefaultContentAux, hdv, hrep]]
        rw [objInsert_of_absent acc k (JValue.arr []) hk]
        rw [extractAux_append rest (acc ++ [(k, JValue.arr [])]) hnd' (hfresh' (JValue.arr []))]
        simp [extractDefaultContentSpec, hdv, hrep]
      · rw [show extractDefaultContentAux (Schema.cons k f rest) acc =
              extractDefaultContentAux rest acc by
            simp [extractDefaultContentAux, hdv, hrep]]
        rw [extractAux_append rest acc hnd'
          (fun k' hk' => hfresh k' (by simp [Schema.keys, hk']))]
        simp [extractDefaultContentSpec, hdv, hrep]

/-- Claim C6: on a schema (a mapping, so with distinct keys),
`extractDefaultContent` produces exactly one entry per field that declares a
`defaultValue` (that value under the field key) or is a repeater with no
declared default (an empty sequence), and nothing else. -/
theorem extractDefaultContent_C6 (s : Schema) (hnd : (Schema.keys s).Nodup) :
    extractDefaultContent s = extractDefaultContentSpec s := by
  have h := extractAux_append s [] hnd (fun k _ => rfl)
  simpa [extractDefaultContent] using h

/-- Witness for C6 on a three-field schema: an explicit default, a repeater
without one, and a defaultless plain field. -/
theorem extractDefaultContent_C6_witness :
    (Schema.keys defaultsDemoSchema).Nodup ∧
    extractDefaultContent defaultsDemoSchema = extractDefaultContentSpec defaultsDemoSchema :=
  ⟨by decide, extractDefaultContent_C6 defaultsDemoSchema (by decide)⟩

/-! ## C4 — `valid` equals error-freeness; required+default is only a warning -/

/-- No error produced by `validateField` depends on the `required` or
`defaultValue` attribute of the field. -/
theorem validateField_errors_indep (ft : List String) (k p : String) (b : Bool)
    (d : Option JValue) :
    ∀ f, (validateField ft k (setReqDefault f b d) p).1 = (validateField ft k f p).1
  | .mk _t _l _r _ph _ht _dv _o _s _mi _ma => rfl

/-- A required field with a present default emits the documented warning on
the console side-channel. -/
theorem validateField_warns (ft : List String) (k p t l : String)
    (ph ht : Option String) (o : Option (List JValue))
    (mi ma : Option Int) (d : JValue) :
    ∀ s : SchemaOpt, requiredDefaultMsg (joinPath p k) ∈
      (validateField ft k (FieldConfig.mk t l true ph ht (some d) o s mi ma) p).2
  | .absent => by simp [validateField, requiredWarnings]
  | .obj s0 => by simp [validateField, requiredWarnings]

/-- Claim C4: `validateSchema` returns `valid` exactly when its error list is
empty; the error component of field validation does not depend on the
`required`/`defaultValue` attributes at all (so a required field with a
default contributes no error and cannot change `valid`); and such a field is
surfaced on the warning side-channel. -/
theorem validateSchema_C4 :
    (∀ ft s, (validateSchema ft s).valid = true ↔ (validateSchema ft s).errors = []) ∧
    (∀ ft k f p b d,
      (validateField ft k (setReqDefault f b d) p).1 = (validateField ft k f p).1) ∧
    (∀ ft k p t l ph ht o mi ma (d : JValue) (s : SchemaOpt),
      requiredDefaultMsg (joinPath p k) ∈
        (validateField ft k (FieldConfig.mk t l true ph ht (some d) o s mi ma) p).2) := by
  refine ⟨?_, ?_, ?_⟩
  · intro ft s
    simp [validateSchema, List.isEmpty_iff]
  · intro ft k f p b d
    exact validateField_errors_indep ft k p b d f
  · intro ft k p t l ph ht o mi ma d s
    exact validateField_warns ft k p t l ph ht o mi ma d s

/-! ## C7 / C8 — scanner behaviour on legacy and unconfigured directories -/

/-- What the scanner loop body does on a directory with no resolvable
configuration: a thrown migration-required error when the manifest carries
legacy metadata and the scan is strict, a silent skip otherwise. -/
theorem scanItem_noconfig (ft : List String) (t : ResType) (o : ScanOptions)
    (it : ItemInfo) (h1 : it.iblockConfig = none) (hl : o.loadConfig = true) :
    scanItem ft t o it =
      (if hasCmssy it.ipkg then
        (if o.strict then .error (legacyFormatMsg t it.iname) else .ok none)
      else .ok none) := by
  unfold scanItem
  rw [hl, h1]
  simp

/-- A non-strict scan of one directory never throws. -/
theorem scanItem_nonstrict_ok (ft : List String) (t : ResType) (o : ScanOptions)
    (it : ItemInfo) (hs : o.strict = false) :
    ∃ r, scanItem ft t o it = .ok r := by
  unfold scanItem
  by_cases hl : o.loadConfig
  · simp only [hl, if_true]
    cases hbc : it.iblockConfig with
    | none =>
      by_cases hc : hasCmssy it.ipkg <;> simp [hc, hs]
    | some bc =>
      by_cases hv : o.shouldValidate && !(validateSchema ft bc.cschema).valid
      · simp [hv, hs]
      · by_cases hp : o.requirePackageJson && !pkgComplete it.ipkg <;>
          simp [hv, hp, hs]
  · simp only [hl, if_false]
    by_cases hp : o.requirePackageJson && !pkgComplete it.ipkg <;> simp [hp, hs]

/-- A non-strict scan of a directory list never throws. -/
theorem scanItems_nonstrict_ok (ft : List String) (t : ResType) (o : ScanOptions)
    (hs : o.strict = false) :
    ∀ items, ∃ rs, scanItems ft t o items = .ok rs
  | [] => ⟨[], rfl⟩
  | it :: rest => by
    obtain ⟨r, hr⟩ := scanItem_nonstrict_ok ft t o it hs
    obtain ⟨rs, hrs⟩ := scanItems_nonstrict_ok ft t o hs rest
    cases r with
    | none => exact ⟨rs, by simp [scanItems, hr, hrs]⟩
    | some x => exact ⟨x :: rs, by simp [scanItems, hr, hrs]⟩

/-- Claim C7: a directory whose manifest carries legacy metadata and for which
no current configuration resolves aborts a strict scan with the
migration-required error, while a non-strict scan emits no record for it,
continues with the remaining directories, and does not raise. -/
theorem scanItems_legacy_C7 (ft : List String) (t : ResType) (o1 o2 : ScanOptions)
    (it : ItemInfo) (rest : List ItemInfo)
    (hbc : it.iblockConfig = none) (hc : hasCmssy it.ipkg = true)
    (hl1 : o1.loadConfig = true) (hs1 : o1.strict = true)
    (hl2 : o2.loadConfig = true) (hs2 : o2.strict = false) :
    scanItems ft t o1 (it :: rest) = .error (legacyFormatMsg t it.iname) ∧
    scanItems ft t o2 (it :: rest) = scanItems ft t o2 rest ∧
    (∃ rs, scanItems ft t o2 (it :: rest) = .ok rs) := by
  have h1 : scanItem ft t o1 it = .error (legacyFormatMsg t it.iname) := by
    rw [scanItem_noconfig ft t o1 it hbc hl1, hc, hs1]
    simp
  have h2 : scanItem ft t o2 it = .ok none := by
    rw [scanItem_noconfig ft t o2 it hbc hl2, hc, hs2]
    simp
  refine ⟨by simp [scanItems, h1], ?_, ?_⟩
  · cases hrest : scanItems ft t o2 rest <;> simp [scanItems, h2, hrest]
  · obtain ⟨rs, hrs⟩ := scanItems_nonstrict_ok ft t o2 hs2 rest
    exact ⟨rs, by simp [scanItems, h2, hrs]⟩

/-- Witness for C7: a legacy-format directory under strict and lenient
defaults. -/
theorem scanItems_legacy_C7_witness :
    (ItemInfo.iblockConfig legacyItem = none ∧ hasCmssy legacyItem.ipkg = true) ∧
    scanItems [] ResType.block strictOptions [legacyItem] =
      .error (legacyFormatMsg ResType.block "hero") ∧
    scanItems [] ResType.block lenientOptions [legacyItem] =
      scanItems [] ResType.block lenientOptions [] ∧
    (∃ rs, scanItems [] ResType.block lenientOptions [legacyItem] = .ok rs) := by
  have h := scanItems_legacy_C7 [] ResType.block strictOptions lenientOptions
    legacyItem [] rfl rfl rfl rfl rfl rfl
  exact ⟨⟨rfl, rfl⟩, h.1, h.2.1, h.2.2⟩

/-- Claim C8: a directory with no resolvable configuration and no legacy
metadata is skipped with no record and no error, in strict and non-strict
scans alike. -/
theorem scanItems_unconfigured_C8 (ft : List String) (t : ResType) (o : ScanOptions)
    (it : ItemInfo) (rest : List ItemInfo)
    (hbc : it.iblockConfig = none) (hc : hasCmssy it.ipkg = false)
    (hl : o.loadConfig = true) :
    scanItems ft t o (it :: rest) = scanItems ft t o rest ∧
    scanItems ft t o [it] = .ok [] := by
  have h : scanItem ft t o it = .ok none := by
    rw [scanItem_noconfig ft t o it hbc hl, hc]
    simp
  constructor
  · cases hrest : scanItems ft t o rest <;> simp [scanItems, h, hrest]
  · simp [scanItems, h]

/-- Witness for C8: an unconfigured directory under both modes. -/
theorem scanItems_unconfigured_C8_witness :
    (ItemInfo.iblockConfig unconfiguredItem = none ∧
      hasCmssy unconfiguredItem.ipkg = false) ∧
    (scanItems [] ResType.block strictOptions [unconfiguredItem] =
        scanItems [] ResType.block strictOptions [] ∧
      scanItems [] ResType.block strictOptions [unconfiguredItem] = .ok []) ∧
    (scanItems [] ResType.template lenientOptions [unconfiguredItem] =
        scanItems [] ResType.template lenientOptions [] ∧
      scanItems [] ResType.template lenientOptions [unconfiguredItem] = .ok []) := by
  have h1 := scanItems_unconfigured_C8 [] ResType.block strictOptions
    unconfiguredItem [] rfl rfl rfl
  have h2 := scanItems_unconfigured_C8 [] ResType.template lenientOptions
    unconfiguredItem [] rfl rfl rfl
  exact ⟨⟨rfl, rfl⟩, h1, h2⟩

/-! ## C10 — record order of `scanResources` -/

/-- A record pushed by the scanner loop carries the collection's type tag and
the directory name. -/
theorem scanItem_ok_some (ft : List String) (t : ResType) (o : ScanOptions)
    (it : ItemInfo) (r : ScannedResource)
    (h : scanItem ft t o it = .ok (some r)) :
    r.rtype = t ∧ r.rname = it.iname := by
  unfold scanItem at h
  by_cases hl : o.loadConfig
  · simp only [hl, if_true] at h
    cases hbc : it.iblockConfig with
    | none =>
      rw [hbc] at h
      by_cases hc : hasCmssy it.ipkg <;> by_cases hs : o.strict <;>
        simp [hc, hs] at h
    | some bc =>
      rw [hbc] at h
      by_cases hv : o.shouldValidate && !(validateSchema ft bc.cschema).valid
      · by_cases hs : o.strict <;> simp [hv, hs] at h
      · by_cases hp : o.requirePackageJson && !pkgComplete it.ipkg
        · by_cases hs : o.strict <;> simp [hv, hp, hs] at h
        · simp [hv, hp] at h
          obtain ⟨rfl⟩ := h
          exact ⟨rfl, rfl⟩
  · simp only [hl, if_false] at h
    by_cases hp : o.requirePackageJson && !pkgComplete it.ipkg
    · by_cases hs : o.strict <;> simp [hp, hs] at h
    · simp [hp] at h
      obtain ⟨rfl⟩ := h
      exact ⟨rfl, rfl⟩

/-- Records of one collection scan carry that collection's type and appear in
directory-listing order (their names form a sublist of the listing). -/
theorem scanItems_order (ft : List String) (t : ResType) (o : ScanOptions) :
    ∀ (items : List ItemInfo) (rs : List ScannedResource),
      scanItems ft t o items = .ok rs →
      (∀ r ∈ rs, r.rtype = t) ∧
      List.Sublist (rs.map ScannedResource.rname) (items.map ItemInfo.iname)
  | [], rs, h => by
    simp [scanItems] at h
    subst h
    simp
  | it :: rest, rs, h => by
    rw [scanItems] at h
    cases hit : scanItem ft t o it with
    | error e => rw [hit] at h; exact absurd h (by simp)
    | ok r =>
      rw [hit] at h
      cases hrest : scanItems ft t o rest with
      | error e => rw [hrest] at h; exact absurd h (by simp)
      | ok rs0 =>
        rw [hrest] at h
        obtain ⟨ht0, hsub⟩ := scanItems_order ft t o rest rs0 hrest
        cases r with
        | none =>
          simp at h
          subst h
          exact ⟨ht0, hsub.trans (List.sublist_cons_self _ _)⟩
        | some x =>
          simp at h
          subst h
          obtain ⟨hx1, hx2⟩ := scanItem_ok_some ft t o it x hit
          refine ⟨?_, ?_⟩
          · intro r hr
            rcases List.mem_cons.mp hr with hr | hr
            · exact hr ▸ hx1
            · exact ht0 r hr
          · simpa [hx2] using List.Sublist.cons₂ it.iname hsub

/-- Claim C10: every successful `scanResources` run returns all block records
(in blocks-directory listing order) followed by all template records (in
templates-directory listing order). -/
theorem scanResources_order_C10 (ft : List String) (o : ScanOptions)
    (blocks templates : Option (List ItemInfo)) (rs : List ScannedResource)
    (h : scanResources ft o blocks templates = .ok rs) :
    ∃ rb rt, rs = rb ++ rt ∧
      (∀ r ∈ rb, r.rtype = ResType.block) ∧
      (∀ r ∈ rt, r.rtype = ResType.template) ∧
      List.Sublist (rb.map ScannedResource.rname) ((blocks.getD []).map ItemInfo.iname) ∧
      List.Sublist (rt.map ScannedResource.rname) ((templates.getD []).map ItemInfo.iname) := by
  unfold scanResources at h
  cases hb : scanDirectory ft ResType.block o blocks with
  | error e => rw [hb] at h; exact absurd h (by simp)
  | ok rb =>
    rw [hb] at h
    cases htm : scanDirectory ft ResType.template o templates with
    | error e => rw [htm] at h; exact absurd h (by simp)
    | ok rt =>
      rw [htm] at h
      simp at h
      subst h
      have hbfacts : (∀ r ∈ rb, r.rtype = ResType.block) ∧
          List.Sublist (rb.map ScannedResource.rname)
            ((blocks.getD []).map ItemInfo.iname) := by
        cases blocks with
        | none =>
          simp [scanDirectory] at hb
          subst hb
          simp
        | some items =>
          simp [scanDirectory] at hb
          simpa using scanItems_order ft ResType.block o items rb hb
      have htfacts : (∀ r ∈ rt, r.rtype = ResType.template) ∧
          List.Sublist (rt.map ScannedResource.rname)
            ((templates.getD []).map ItemInfo.iname) := by
        cases templates with
        | none =>
          simp [scanDirectory] at htm
          subst htm
          simp
        | some items =>
          simp [scanDirectory] at htm
          simpa using scanItems_order ft ResType.template o items rt htm
      exact ⟨rb, rt, rfl, hbfacts.1, htfacts.1, hbfacts.2, htfacts.2⟩

/-- Witness for C10: a concrete run with one configured block directory and
one configured template directory. -/
theorem scanResources_order_C10_witness :
    ∃ rs, scanResources ["singleLine"] lenientOptions
        (some [configuredItem]) (some [configuredItem]) = .ok rs ∧
      ∃ rb rt, rs = rb ++ rt ∧
        (∀ r ∈ rb, r.rtype = ResType.block) ∧
        (∀ r ∈ rt, r.rtype = ResType.template) ∧
        List.Sublist (rb.map ScannedResource.rname)
          ((((some [configuredItem] : Option (List ItemInfo))).getD []).map ItemInfo.iname) ∧
        List.Sublist (rt.map ScannedResource.rname)
          ((((some [configuredItem] : Option (List ItemInfo))).getD []).map ItemInfo.iname) :=
  ⟨_, rfl, scanResources_order_C10 ["singleLine"] lenientOptions
    (some [configuredItem]) (some [configuredItem]) _ rfl⟩

/-! ## C5 — dotted error paths -/

/-- One-field unfolding of `validateField` in terms of the named check
helpers. -/
theorem validateField_eq (ft : List String) (k p : String) (ftype lbl : String)
    (req : Bool) (ph ht : Option String) (dv : Option JValue)
    (opts : Option (List JValue)) (minI maxI : Option Int) :
    ∀ sch : SchemaOpt,
      validateField ft k (.mk ftype lbl req ph ht dv opts sch minI maxI) p =
        (typeErrors ft ftype (joinPath p k) ++
          (if ftype = "repeater" then
            (nestedResult ft (joinPath p k) ftype sch).1 ++
              minItemsErrors (joinPath p k) minI ++
              maxItemsErrors (joinPath p k) maxI ++
              minMaxErrors (joinPath p k) minI maxI
          else []) ++
          selectErrors (joinPath p k) ftype opts,
         (nestedResult ft (joinPath p k) ftype sch).2 ++
           requiredWarnings (joinPath p k) req dv)
  | .absent => rfl
  | .obj s => rfl

theorem validateFields_nil (ft : List String) (p : String) :
    validateFields ft .nil p = ([], []) := rfl

theorem validateFields_cons (ft : List String) (p k : String) (f : FieldConfig)
    (rest : Schema) :
    validateFields ft (.cons k f rest) p =
      ((validateField ft k f p).1 ++ (validateFields ft rest p).1,
       (validateField ft k f p).2 ++ (validateFields ft rest p).2) := rfl

/-- A string is an infix of any string enclosing it. -/
theorem mention_mid (a p b : String) : List.IsInfix p.data (a ++ p ++ b).data := by
  rw [String.data_append, String.data_append]
  exact ⟨a.data, b.data, rfl⟩

/-- The parent path is an infix of a joined path. -/
theorem joinPath_mention (p k : String) : List.IsInfix p.data (joinPath p k).data := by
  unfold joinPath
  split
  · rename_i h
    subst h
    exact ⟨[], k.data, rfl⟩
  · rw [String.data_append, String.data_append]
    exact ⟨[], ".".data ++ k.data, by simp⟩

theorem mem_typeErrors (ft : List String) (t fp e : String)
    (h : e ∈ typeErrors ft t fp) : List.IsInfix fp.data e.data := by
  unfold typeErrors at h
  split at h
  · simp at h
  · simp at h
    subst h
    unfold invalidTypeMsg
    exact mention_mid _ _ _

theorem mem_minItemsErrors (fp e : String) (minI : Option Int)
    (h : e ∈ minItemsErrors fp minI) : List.IsInfix fp.data e.data := by
  unfold minItemsErrors at h
  rcases minI with _ | m
  · simp at h
  · simp at h
    obtain ⟨-, rfl⟩ := h
    unfold minItemsMsg
    exact mention_mid _ _ _

theorem mem_maxItemsErrors (fp e : String) (maxI : Option Int)
    (h : e ∈ maxItemsErrors fp maxI) : List.IsInfix fp.data e.data := by
  unfold maxItemsErrors at h
  rcases maxI with _ | m
  · simp at h
  · simp at h
    obtain ⟨-, rfl⟩ := h
    unfold maxItemsMsg
    exact mention_mid _ _ _

theorem mem_minMaxErrors (fp e : String) (minI maxI : Option Int)
    (h : e ∈ minMaxErrors fp minI maxI) : List.IsInfix fp.data e.data := by
  unfold minMaxErrors at h
  rcases minI with _ | m <;> rcases maxI with _ | mx <;> simp at h
  obtain ⟨-, rfl⟩ := h
  unfold minMaxMsg
  exact mention_mid _ _ _

theorem mem_selectErrors (fp t e : String) (opts : Option (List JValue))
    (h : e ∈ selectErrors fp t opts) : List.IsInfix fp.data e.data := by
  unfold selectErrors at h
  split at h
  · split at h <;> simp at h
    subst h
    unfold selectOptionsMsg
    exact mention_mid _ _ _
  · simp at h

theorem mem_repeaterSchemaMsg (fp : String) :
    List.IsInfix fp.data (repeaterSchemaMsg fp).data := by
  unfold repeaterSchemaMsg
  exact mention_mid _ _ _

mutual
/-- Every error emitted while validating the field under `key` mentions that
field's dotted path. -/
theorem validateField_path (ft : List String) (k p : String) :
    ∀ (f : FieldConfig) (e : String), e ∈ (validateField ft k f p).1 →
      List.IsInfix (joinPath p k).data e.data
  | .mk ftype lbl req ph ht dv opts sch minI maxI, e, he => by
    rw [validateField_eq] at he
    rcases List.mem_append.mp he with he1 | he1
    · rcases List.mem_append.mp he1 with he2 | he2
      · exact mem_typeErrors ft ftype _ e he2
      · by_cases hrep : ftype = "repeater"
        · rw [if_pos hrep] at he2
          rcases List.mem_append.mp he2 with he3 | he3
          · rcases List.mem_append.mp he3 with he4 | he4
            · rcases List.mem_append.mp he4 with he5 | he5
              · cases sch with
                | absent =>
                  have : e = repeaterSchemaMsg (joinPath p k) := by
                    simpa [nestedResult, hrep] using he5
                  subst this
                  exact mem_repeaterSchemaMsg _
                | obj s =>
                  have h6 : e ∈ (validateFields ft s (joinPath p k)).1 := by
                    simpa [nestedResult, hrep] using he5
                  exact validateFields_path ft (joinPath p k) s e h6
              · exact mem_minItemsErrors _ e minI he5
            · exact mem_maxItemsErrors _ e maxI he4
          · exact mem_minMaxErrors _ e minI maxI he3
        · rw [if_neg hrep] at he2
          simp at he2
    · exact mem_selectErrors _ ftype e opts he1

/-- Every error emitted while validating a (nested) schema mentions the
parent path it was validated under. -/
theorem validateFields_path (ft : List String) (p : String) :
    ∀ (s : Schema) (e : String), e ∈ (validateFields ft s p).1 →
      List.IsInfix p.data e.data
  | .nil, e, he => by
    rw [validateFields_nil] at he
    simp at he
  | .cons k f rest, e, he => by
    rw [validateFields_cons] at he
    rcases List.mem_append.mp he with h | h
    · exact (joinPath_mention p k).trans (validateField_path ft k p f e h)
    · exact validateFields_path ft p rest e h
end

/-- Claim C5: every validation error about a field mentions that field's
dotted path (built by joining the ancestor keys with dots); in particular, for
any vocabulary containing `repeater` and `select`, the schema
`{items: repeater{schema:{title: select, options: []}}}` produces exactly one
error, which mentions the path `items.title`. -/
theorem validateSchema_paths_C5 :
    (∀ (ft : List String) (p k : String) (f : FieldConfig) (e : String),
      e ∈ (validateField ft k f p).1 → List.IsInfix (joinPath p k).data e.data) ∧
    (∀ ft : List String, "repeater" ∈ ft → "select" ∈ ft →
      (validateSchema ft nestedSelectSchema).errors = [selectOptionsMsg "items.title"] ∧
      List.IsInfix ("items.title").data (selectOptionsMsg "items.title").data) := by
  constructor
  · intro ft p k f e he
    exact validateField_path ft k p f e he
  · intro ft h1 h2
    have hrep : isValidFieldType "repeater" ft = true := by
      simp [isValidFieldType, List.contains, h1]
    have hsel : isValidFieldType "select" ft = true := by
      simp [isValidFieldType, List.contains, h2]
    constructor
    · show (validateFields ft nestedSelectSchema "").1 = _
      unfold nestedSelectSchema
      rw [validateFields_cons, validateFields_nil, validateField_eq]
      simp only [nestedResult]
      rw [validateFields_cons, validateFields_nil, validateField_eq]
      simp [typeErrors, hrep, hsel, selectErrors, minItemsErrors, maxItemsErrors,
        minMaxErrors, joinPath]
    · decide

/-- Witness for C5 at the two-element vocabulary. -/
theorem validateSchema_paths_C5_witness :
    ("repeater" ∈ ["repeater", "select"] ∧ "select" ∈ ["repeater", "select"]) ∧
    (validateSchema ["repeater", "select"] nestedSelectSchema).errors =
      [selectOptionsMsg "items.title"] ∧
    List.IsInfix ("items.title").data (selectOptionsMsg "items.title").data :=
  ⟨⟨by decide, by decide⟩,
    validateSchema_paths_C5.2 ["repeater", "select"] (by decide) (by decide)⟩

/-! ## C1 — characterization of `valid` -/

/-- One-field unfolding of the claim-side rules. -/
theorem fieldMeetsRules_eq (ft : List String) (ftype lbl : String) (req : Bool)
    (ph ht : Option String) (dv : Option JValue) (opts : Option (List JValue))
    (minI maxI : Option Int) :
    ∀ sch : SchemaOpt,
      fieldMeetsRules ft (.mk ftype lbl req ph ht dv opts sch minI maxI) =
        (isValidFieldType ftype ft &&
          (if ftype = "select" then
              match opts with
              | some (_ :: _) => true
              | _ => false
            else true) &&
          (if ftype = "repeater" then
              nestedRulesOk ft sch &&
              (match minI with
               | some m => decide (0 ≤ m)
               | none => true) &&
              (match maxI with
               | some m => decide (1 ≤ m)
               | none => true) &&
              (match minI, maxI with
               | some m, some mx => decide (m ≤ mx)
               | _, _ => true)
            else true))
  | .absent => rfl
  | .obj s => rfl

theorem schemaMeetsRules_nil (ft : List String) : schemaMeetsRules ft .nil = true := rfl

theorem schemaMeetsRules_cons (ft : List String) (k : String) (f : FieldConfig)
    (rest : Schema) :
    schemaMeetsRules ft (.cons k f rest) =
      (fieldMeetsRules ft f && schemaMeetsRules ft rest) := rfl

theorem typeErrors_eq_nil (ft : List String) (t fp : String) :
    typeErrors ft t fp = [] ↔ isValidFieldType t ft = true := by
  unfold typeErrors
  split <;> simp_all

theorem selectErrors_eq_nil (fp t : String) (opts : Option (List JValue)) :
    selectErrors fp t opts = [] ↔
      (if t = "select" then
          match opts with
          | some (_ :: _) => true
          | _ => false
        else true) = true := by
  unfold selectErrors
  split
  · rcases opts with _ | ⟨_ | ⟨v, l⟩⟩ <;> simp
  · simp

/-- Emptiness of the three bound checks matches the claim-side bound
conditions (this is where the JavaScript zero-bound truthiness is shown not to
affect validity). -/
theorem boundsErrors_eq_nil (fp : String) (minI maxI : Option Int) :
    (minItemsErrors fp minI = [] ∧ maxItemsErrors fp maxI = [] ∧
      minMaxErrors fp minI maxI = []) ↔
    ((match minI with
      | some m => decide (0 ≤ m)
      | none => true) = true ∧
     (match maxI with
      | some m => decide (1 ≤ m)
      | none => true) = true ∧
     (match minI, maxI with
      | some m, some mx => decide (m ≤ mx)
      | _, _ => true) = true) := by
  rcases minI with _ | m <;> rcases maxI with _ | mx <;>
    simp [minItemsErrors, maxItemsErrors, minMaxErrors,
      ite_eq_right_iff, decide_eq_true_eq] <;> omega

mutual
/-- The errors of one field are empty exactly when the field meets the
claim-side rules. -/
theorem validateField_ok (ft : List String) (k p : String) :
    ∀ f : FieldConfig, ((validateField ft k f p).1 = []) ↔ fieldMeetsRules ft f = true
  | .mk ftype lbl req ph ht dv opts sch minI maxI => by
    rw [validateField_eq, fieldMeetsRules_eq]
    have hA := typeErrors_eq_nil ft ftype (joinPath p k)
    by_cases hrep : ftype = "repeater"
    · subst hrep
      have hN : ((nestedResult ft (joinPath p k) "repeater" sch).1 = []) ↔
          nestedRulesOk ft sch = true := by
        cases sch with
        | absent => simp [nestedResult, nestedRulesOk]
        | obj s =>
          have := validateFields_ok ft (joinPath p k) s
          simpa [nestedResult, nestedRulesOk] using this
      have hB := boundsErrors_eq_nil (joinPath p k) minI maxI
      have hc : selectErrors (joinPath p k) "repeater" opts = [] := by
        simp [selectErrors]
      have hsel_ne : (("repeater" : String) = "select") = False := eq_false (by decide)
      simp only [hsel_ne, if_false, eq_self_iff_true, if_true, List.append_eq_nil,
        Bool.and_eq_true, and_true, true_and]
      constructor
      · rintro ⟨⟨ha, ⟨⟨hn, h1⟩, h2⟩, h3⟩, -⟩
        obtain ⟨b1, b2, b3⟩ := hB.mp ⟨h1, h2, h3⟩
        exact ⟨hA.mp ha, ⟨⟨hN.mp hn, b1⟩, b2⟩, b3⟩
      · rintro ⟨ha, ⟨⟨hn, b1⟩, b2⟩, b3⟩
        obtain ⟨h1, h2, h3⟩ := hB.mpr ⟨b1, b2, b3⟩
        exact ⟨⟨hA.mpr ha, ⟨⟨hN.mpr hn, h1⟩, h2⟩, h3⟩, hc⟩
    · simp only [if_neg hrep, List.append_eq_nil, Bool.and_eq_true, eq_self_iff_true,
        and_true, true_and]
      exact and_congr hA (selectErrors_eq_nil (joinPath p k) ftype opts)

/-- The errors of a schema are empty exactly when all of its fields meet the
claim-side rules. -/
theorem validateFields_ok (ft : List String) (p : String) :
    ∀ s : Schema, ((validateFields ft s p).1 = []) ↔ schemaMeetsRules ft s = true
  | .nil => by
    rw [validateFields_nil, schemaMeetsRules_nil]
    simp
  | .cons k f rest => by
    rw [validateFields_cons, schemaMeetsRules_cons]
    simp only [List.append_eq_nil, Bool.and_eq_true]
    exact and_congr (validateField_ok ft k p f) (validateFields_ok ft p rest)
end

/-- Amended claim C1: `validateSchema` reports `valid` exactly when,
recursively, every field's type is in the vocabulary, every select field has
at least one option, and every repeater field declares an object-typed nested
schema (possibly empty) with `minItems ≥ 0`, `maxItems ≥ 1` when present, and
`minItems ≤ maxItems` when both are present. -/
theorem validateSchema_C1_amended (ft : List String) (s : Schema) :
    ((validateSchema ft s).valid = true) ↔ schemaMeetsRules ft s = true := by
  have h := validateFields_ok ft "" s
  simpa [validateSchema, List.isEmpty_iff] using h

/-- Claim C1 as stated is false on the code: a repeater whose nested schema is
the empty object is accepted by `validateSchema` (only a missing or
non-object `schema` is an error), while the claim requires a non-empty nested
schema. -/
theorem validateSchema_C1_counterexample :
    ¬ (((validateSchema ["repeater"] emptyRepeaterSchema).valid = true) ↔
      (schemaMeetsRulesOrig ["repeater"] emptyRepeaterSchema = true)) := by
  decide

/-! ## C3 — the legacy round trip -/

/-- One-field unfolding of `convertLegacyField`. -/
theorem convertLegacyField_eq (key ltype lbl : String) (req : Bool)
    (ph ht : Option String) (opts : Option (List JValue)) (minI maxI : Option Int) :
    ∀ itemS : LegacyItemOpt,
      convertLegacyField (.mk key ltype lbl req ph ht opts minI maxI itemS) =
        FieldConfig.mk (mapLegacyType ltype) lbl req
          (if strTruthy ph then ph else none)
          (if strTruthy ht then ht else none)
          none
          (if ltype = "select" && opts.isSome then opts else none)
          (convertNested ltype itemS)
          (if ltype = "repeater" && itemS.isItem then numKeep minI else none)
          (if ltype = "repeater" && itemS.isItem then numKeep maxI else none)
  | .absent => rfl
  | .item (.mk ity .absent) => rfl
  | .item (.mk ity (.fields fs)) => rfl

theorem convertLegacyFields_cons (f : LegacyField) (rest : LegacyFields) (acc : Schema) :
    convertLegacyFields (.cons f rest) acc =
      convertLegacyFields rest (Schema.insert acc f.key (convertLegacyField f)) := rfl

theorem convertSchemaBackAux_nil : convertSchemaBackAux .nil = some .nil := rfl

theorem convertSchemaBackAux_cons (k : String) (f : FieldConfig) (rest : Schema) :
    convertSchemaBackAux (.cons k f rest) =
      (match convertFieldBack k f, convertSchemaBackAux rest with
       | some lf, some lrest => some (.cons lf lrest)
       | _, _ => none) := rfl

/-- One-field unfolding of `convertFieldBack`. -/
theorem convertFieldBack_eq (k ftype lbl : String) (req : Bool)
    (ph ht : Option String) (dv : Option JValue) (opts : Option (List JValue))
    (minI maxI : Option Int) :
    ∀ sch : SchemaOpt,
      convertFieldBack k (.mk ftype lbl req ph ht dv opts sch minI maxI) =
        convertFieldBackSpec k ftype lbl req ph opts minI maxI sch
  | .absent => rfl
  | .obj s => rfl

theorem fieldDirect_eq (key ltype lbl : String) (req : Bool) (ph ht : Option String)
    (opts : Option (List JValue)) (minI maxI : Option Int) :
    ∀ itemS : LegacyItemOpt,
      fieldDirect (.mk key ltype lbl req ph ht opts minI maxI itemS) =
        (decide (mapLegacyType ltype = ltype) && fieldDirectNested ltype itemS)
  | .absent => rfl
  | .item (.mk ity .absent) => rfl
  | .item (.mk ity (.fields fs)) => rfl

theorem fieldsDirect_cons (f : LegacyField) (rest : LegacyFields) :
    fieldsDirect (.cons f rest) =
      (fieldDirect f && decide (f.key ∉ keysL rest) && fieldsDirect rest) := rfl

theorem fieldNoZeroBound_eq (key ltype lbl : String) (req : Bool)
    (ph ht : Option String) (opts : Option (List JValue)) (minI maxI : Option Int) :
    ∀ itemS : LegacyItemOpt,
      fieldNoZeroBound (.mk key ltype lbl req ph ht opts minI maxI itemS) =
        (decide (minI ≠ some 0) && decide (maxI ≠ some 0) && fieldNoZeroNested itemS)
  | .absent => rfl
  | .item (.mk ity .absent) => rfl
  | .item (.mk ity (.fields fs)) => rfl

theorem fieldsNoZeroBound_cons (f : LegacyField) (rest : LegacyFields) :
    fieldsNoZeroBound (.cons f rest) =
      (fieldNoZeroBound f && fieldsNoZeroBound rest) := rfl

/-- One-field unfolding of `PreservesField`. -/
theorem PreservesField_eq (okey oltype olbl : String) (oreq : Bool)
    (oph oht : Option String) (oopts : Option (List JValue))
    (omin omax : Option Int) (r : LegacyField) :
    ∀ oitem : LegacyItemOpt,
      PreservesField (.mk okey oltype olbl oreq oph oht oopts omin omax oitem) r =
        (r.key = okey ∧ r.label = olbl ∧ r.required = oreq ∧
         (oltype = "select" → r.options = oopts) ∧
         (oltype = "repeater" →
           r.minItems = omin ∧ r.maxItems = omax ∧ PreservesNested oitem r))
  | .absent => rfl
  | .item (.mk ity .absent) => rfl
  | .item (.mk ity (.fields ofs)) => rfl

theorem PreservesFields_cons (o : LegacyField) (orest : LegacyFields)
    (r : LegacyField) (rrest : LegacyFields) :
    PreservesFields (.cons o orest) (.cons r rrest) =
      (PreservesField o r ∧ PreservesFields orest rrest) := rfl

theorem Schema.keys_append : ∀ s1 s2 : Schema,
    Schema.keys (Schema.append s1 s2) = Schema.keys s1 ++ Schema.keys s2
  | .nil, s2 => rfl
  | .cons k f rest, s2 => by
    show k :: Schema.keys (Schema.append rest s2) = (k :: Schema.keys rest) ++ Schema.keys s2
    rw [Schema.keys_append rest s2]
    rfl

theorem Schema.append_assoc : ∀ a b c : Schema,
    Schema.append (Schema.append a b) c = Schema.append a (Schema.append b c)
  | .nil, _, _ => rfl
  | .cons k f rest, b, c => by
    show Schema.cons k f (Schema.append (Schema.append rest b) c) =
      Schema.cons k f (Schema.append rest (Schema.append b c))
    rw [Schema.append_assoc rest b c]

/-- JS object insertion of a fresh key appends the entry. -/
theorem Schema.insert_not_mem : ∀ (s : Schema) (k : String) (f : FieldConfig),
    k ∉ Schema.keys s → Schema.insert s k f = Schema.append s (.cons k f .nil)
  | .nil, k, f, _ => rfl
  | .cons k0 f0 rest, k, f, h => by
    have hk : ¬(k0 = k) := by
      intro e
      exact h (by simp [Schema.keys, e])
    show (if k0 = k then Schema.cons k0 f rest
      else Schema.cons k0 f0 (Schema.insert rest k f)) =
      Schema.cons k0 f0 (Schema.append rest (.cons k f .nil))
    rw [if_neg hk]
    rw [Schema.insert_not_mem rest k f (fun hm => h (by simp [Schema.keys, hm]))]

theorem Schema.append_nil_right : ∀ s : Schema, Schema.append s .nil = s
  | .nil => rfl
  | .cons k f rest => by
    show Schema.cons k f (Schema.append rest .nil) = Schema.cons k f rest
    rw [Schema.append_nil_right rest]

/-- On a field list with pairwise-fresh keys, the `forEach` object building
loop appends the converted fields in order. -/
theorem convertLegacyFields_direct : ∀ (fs : LegacyFields) (acc : Schema),
    fieldsDirect fs = true → (∀ k ∈ keysL fs, k ∉ Schema.keys acc) →
    convertLegacyFields fs acc = Schema.append acc (convertLegacyList fs)
  | .nil, acc, _, _ => by
    show acc = Schema.append acc Schema.nil
    exact (Schema.append_nil_right acc).symm
  | .cons f rest, acc, hd, hdisj => by
    rw [fieldsDirect_cons] at hd
    simp only [Bool.and_eq_true, decide_eq_true_eq] at hd
    obtain ⟨⟨hdf, hnew⟩, hdr⟩ := hd
    have hkey : f.key ∉ Schema.keys acc := hdisj f.key (by simp [keysL])
    have hfresh : ∀ k ∈ keysL rest,
        k ∉ Schema.keys (Schema.append acc (.cons f.key (convertLegacyField f) .nil)) := by
      intro k hk
      rw [Schema.keys_append]
      simp only [List.mem_append]
      rintro (hin | hin)
      · exact hdisj k (by simp [keysL, hk]) hin
      · simp [Schema.keys] at hin
        exact hnew (hin ▸ hk)
    rw [convertLegacyFields_cons, Schema.insert_not_mem acc f.key _ hkey]
    rw [convertLegacyFields_direct rest _ hdr hfresh]
    rw [Schema.append_assoc]
    rfl

/-- On directly-representable field lists the legacy-to-current conversion is
the in-order field map. -/
theorem convertLegacyFields_nil_direct (fs : LegacyFields)
    (hd : fieldsDirect fs = true) :
    convertLegacyFields fs Schema.nil = convertLegacyList fs := by
  have h := convertLegacyFields_direct fs Schema.nil hd
    (fun k _ hm => by simp [Schema.keys] at hm)
  exact h

theorem numKeep_eq : ∀ m : Option Int, m ≠ some 0 → numKeep m = m
  | none, _ => rfl
  | some v, h => by
    have hv : ¬(v = 0) := fun e => h (by rw [e])
    simp [numKeep, hv]

/-- Round trip of one non-repeater directly-representable field. -/
theorem fieldRoundTrip_nonrepeater (key ltype lbl : String) (req : Bool)
    (ph ht : Option String) (opts : Option (List JValue)) (minI maxI : Option Int)
    (itemS : LegacyItemOpt) (hrep : ¬(ltype = "repeater"))
    (hmap : mapLegacyType ltype = ltype) :
    ∃ rf, convertFieldBack key
        (convertLegacyField (.mk key ltype lbl req ph ht opts minI maxI itemS)) =
        some rf ∧
      PreservesField (.mk key ltype lbl req ph ht opts minI maxI itemS) rf := by
  rw [convertLegacyField_eq, hmap]
  have h1 : convertNested ltype itemS = .absent := by
    unfold convertNested
    rw [if_neg hrep]
  have h2 : ∀ x : Option Int,
      (if ltype = "repeater" && itemS.isItem then numKeep x else none) = none := by
    intro x
    simp [hrep]
  rw [h1, h2, h2, convertFieldBack_eq]
  refine ⟨LegacyField.mk key ltype lbl req
      (if strTruthy (if strTruthy ph then ph else none) then
        (if strTruthy ph then ph else none) else none)
      none
      (if ltype = "select" then
        (if ltype = "select" && opts.isSome then opts else none) else none)
      none none LegacyItemOpt.absent, ?_, ?_⟩
  · simp only [convertFieldBackSpec]
    rw [if_neg hrep]
  · rw [PreservesField_eq]
    refine ⟨rfl, rfl, rfl, ?_, fun hr => absurd hr hrep⟩
    intro hsel
    subst hsel
    show (if ("select" : String) = "select" then
      (if ("select" : String) = "select" && opts.isSome then opts else none) else none) = opts
    rcases opts with _ | l <;> simp

mutual
/-- Round trip of one directly-representable field with nonzero bounds. -/
theorem fieldRoundTrip : ∀ f : LegacyField,
    fieldDirect f = true → fieldNoZeroBound f = true →
    ∃ rf, convertFieldBack f.key (convertLegacyField f) = some rf ∧ PreservesField f rf
  | .mk key ltype lbl req ph ht opts minI maxI .absent, hd, _hz => by
    rw [fieldDirect_eq] at hd
    simp only [Bool.and_eq_true, decide_eq_true_eq] at hd
    obtain ⟨hmap, hnest⟩ := hd
    by_cases hrep : ltype = "repeater"
    · simp [fieldDirectNested, hrep] at hnest
    · exact fieldRoundTrip_nonrepeater key ltype lbl req ph ht opts minI maxI
        LegacyItemOpt.absent hrep hmap
  | .mk key ltype lbl req ph ht opts minI maxI (.item (.mk ity .absent)), hd, hz => by
    rw [fieldDirect_eq] at hd
    simp only [Bool.and_eq_true, decide_eq_true_eq] at hd
    obtain ⟨hmap, -⟩ := hd
    rw [fieldNoZeroBound_eq] at hz
    simp only [Bool.and_eq_true, decide_eq_true_eq] at hz
    obtain ⟨⟨hmin, hmax⟩, -⟩ := hz
    by_cases hrep : ltype = "repeater"
    · subst hrep
      rw [convertLegacyField_eq, show mapLegacyType "repeater" = "repeater" from rfl]
      have h1 : convertNested "repeater" (.item (.mk ity .absent)) = .obj Schema.nil := by
        simp [convertNested]
      have h2 : ∀ x : Option Int, x ≠ some 0 →
          (if ("repeater" : String) = "repeater" &&
            (LegacyItemOpt.item (.mk ity .absent)).isItem then numKeep x else none) = x := by
        intro x hx
        simp [LegacyItemOpt.isItem, numKeep_eq x hx]
      rw [h1, h2 minI hmin, h2 maxI hmax, convertFieldBack_eq]
      refine ⟨LegacyField.mk key "repeater" lbl req
          (if strTruthy (if strTruthy ph then ph else none) then
            (if strTruthy ph then ph else none) else none)
          none none minI maxI
          (LegacyItemOpt.item (LegacyItem.mk "object" (LegacyFieldsOpt.fields
            LegacyFields.nil))), ?_, ?_⟩
      · rfl
      · rw [PreservesField_eq]
        refine ⟨rfl, rfl, rfl, fun hs => absurd hs (by decide), fun _ => ⟨rfl, rfl, ?_⟩⟩
        simp [PreservesNested]
    · exact fieldRoundTrip_nonrepeater key ltype lbl req ph ht opts minI maxI
        (.item (.mk ity .absent)) hrep hmap
  | .mk key ltype lbl req ph ht opts minI maxI (.item (.mk ity (.fields fs))), hd, hz => by
    rw [fieldDirect_eq] at hd
    simp only [Bool.and_eq_true, decide_eq_true_eq] at hd
    obtain ⟨hmap, hnest⟩ := hd
    rw [fieldNoZeroBound_eq] at hz
    simp only [Bool.and_eq_true, decide_eq_true_eq] at hz
    obtain ⟨⟨hmin, hmax⟩, hznest⟩ := hz
    by_cases hrep : ltype = "repeater"
    · subst hrep
      have hdfs : fieldsDirect fs = true := by
        simpa [fieldDirectNested] using hnest
      have hzfs : fieldsNoZeroBound fs = true := by
        simpa [fieldNoZeroNested] using hznest
      obtain ⟨rfs, hback, hpres⟩ := fieldsRoundTrip fs hdfs hzfs
      rw [convertLegacyField_eq, show mapLegacyType "repeater" = "repeater" from rfl]
      have h1 : convertNested "repeater" (.item (.mk ity (.fields fs))) =
          .obj (convertLegacyList fs) := by
        simp [convertNested]
        exact convertLegacyFields_nil_direct fs hdfs
      have h2 : ∀ x : Option Int, x ≠ some 0 →
          (if ("repeater" : String) = "repeater" &&
            (LegacyItemOpt.item (.mk ity (.fields fs))).isItem then
            numKeep x else none) = x := by
        intro x hx
        simp [LegacyItemOpt.isItem, numKeep_eq x hx]
      rw [h1, h2 minI hmin, h2 maxI hmax, convertFieldBack_eq]
      refine ⟨LegacyField.mk key "repeater" lbl req
          (if strTruthy (if strTruthy ph then ph else none) then
            (if strTruthy ph then ph else none) else none)
          none none minI maxI
          (LegacyItemOpt.item (LegacyItem.mk "object" (LegacyFieldsOpt.fields rfs))),
          ?_, ?_⟩
      · simp [convertFieldBackSpec, hback, LegacyField.key]
      · rw [PreservesField_eq]
        refine ⟨rfl, rfl, rfl, fun hs => absurd hs (by decide), fun _ => ⟨rfl, rfl, ?_⟩⟩
        simpa [PreservesNested, LegacyField.itemFields] using hpres
    · exact fieldRoundTrip_nonrepeater key ltype lbl req ph ht opts minI maxI
        (.item (.mk ity (.fields fs))) hrep hmap

/-- Round trip of a directly-representable field list with nonzero bounds. -/
theorem fieldsRoundTrip : ∀ fs : LegacyFields,
    fieldsDirect fs = true → fieldsNoZeroBound fs = true →
    ∃ rfs, convertSchemaBackAux (convertLegacyList fs) = some rfs ∧
      PreservesFields fs rfs
  | .nil, _, _ => ⟨.nil, rfl, trivial⟩
  | .cons f rest, hd, hz => by
    rw [fieldsDirect_cons] at hd
    simp only [Bool.and_eq_true, decide_eq_true_eq] at hd
    obtain ⟨⟨hdf, -⟩, hdr⟩ := hd
    rw [fieldsNoZeroBound_cons] at hz
    simp only [Bool.and_eq_true] at hz
    obtain ⟨hzf, hzr⟩ := hz
    obtain ⟨rf, hbf, hpf⟩ := fieldRoundTrip f hdf hzf
    obtain ⟨rfs, hbs, hps⟩ := fieldsRoundTrip rest hdr hzr
    refine ⟨.cons rf rfs, ?_, ?_⟩
    · show convertSchemaBackAux (.cons f.key (convertLegacyField f) (convertLegacyList rest)) = _
      rw [convertSchemaBackAux_cons, hbf, hbs]
    · rw [PreservesFields_cons]
      exact ⟨hpf, hps⟩
end

/-- Amended claim C3: on a legacy field list that is directly representable
(no legacy type aliases, pairwise-distinct keys, repeaters declaring an
`itemSchema`) and in which no declared `minItems`/`maxItems` bound is `0`,
converting legacy to current and back preserves all field keys, labels,
required flags, select options, and repeater bounds and nested fields. -/
theorem roundTrip_C3_amended (fs : LegacyFields)
    (hd : fieldsDirect fs = true) (hz : fieldsNoZeroBound fs = true) :
    ∃ rt, convertSchemaToLegacyFormat (convertLegacySchemaToNew fs) = some rt ∧
      PreservesFields fs rt := by
  have h : convertLegacySchemaToNew fs = convertLegacyList fs :=
    convertLegacyFields_nil_direct fs hd
  rw [show convertSchemaToLegacyFormat (convertLegacySchemaToNew fs) =
    convertSchemaBackAux (convertLegacySchemaToNew fs) from rfl, h]
  exact fieldsRoundTrip fs hd hz

/-- Witness for the amended C3 on a two-field legacy list (a repeater with a
nested field and nonzero bounds, and a select). -/
theorem roundTrip_C3_amended_witness :
    (fieldsDirect demoLegacyFields = true ∧ fieldsNoZeroBound demoLegacyFields = true) ∧
    (∃ rt, convertSchemaToLegacyFormat (convertLegacySchemaToNew demoLegacyFields) =
      some rt ∧ PreservesFields demoLegacyFields rt) :=
  ⟨⟨by decide, by decide⟩, roundTrip_C3_amended demoLegacyFields (by decide) (by decide)⟩

/-- Claim C3 as stated is false on the code: the directly-representable legacy
list `[{key:"items", type:"repeater", minItems:0, maxItems:2, itemSchema:
{fields:[]}}]` round-trips to a field with no `minItems` at all (the `0` bound
is falsy in JavaScript and dropped by `convertLegacySchemaToNew`), so the
bounds are not preserved. -/
theorem roundTrip_C3_counterexample :
    fieldsDirect zeroMinFields = true ∧
    convertSchemaToLegacyFormat (convertLegacySchemaToNew zeroMinFields) =
      some zeroMinRoundTrip ∧
    ¬ PreservesFields zeroMinFields zeroMinRoundTrip := by
  refine ⟨by decide, rfl, ?_⟩
  intro h
  obtain ⟨h1, -⟩ := h
  rw [show zeroMinField =
    LegacyField.mk "items" "repeater" "Items" false none none none (some 0) (some 2)
      (LegacyItemOpt.item (LegacyItem.mk "object" (LegacyFieldsOpt.fields
        LegacyFields.nil))) from rfl, PreservesField_eq] at h1
  obtain ⟨-, -, -, -, hrep⟩ := h1
  have hmin := (hrep rfl).1
  simp [zeroMinRoundTrip, LegacyField.minItems] at hmin

end Cmssy
